import Mathlib

/-!
Verification of the scheduling traits and utilities of
`pallet-scheduler-datetime` (`src/src/traits.rs`), together with a model of
the scheduler engine described by the specification where the repository
ships only the trait surface.
-/

namespace SchedulerTraits

/-- Encoded bytes of a preimage, modelled as a list of byte values. -/
abbrev Bytes := List Nat

/-- `pub type Priority = u8`: a linear amount, lowest values meaning higher
priority.  Modelled as `Nat`; the `u8` bound is irrelevant to the claims. -/
abbrev Priority := Nat

/-- `pub const HARD_DEADLINE: Priority = 63`: anything of this value or lower
is scheduled on the block it asks for even if it breaches the weight limit. -/
def HARD_DEADLINE : Priority := 63

/-- `enum MaybeHashed<T, Hash>`: an encodable value or the hash of the
encoding of such a value. -/
inductive MaybeHashed (T H : Type) where
  | Value (t : T)
  | Hash (h : H)
deriving DecidableEq

/-- `enum LookupError`: error type for `MaybeHashed::lookup`. -/
inductive LookupError where
  | Unknown
  | BadFormat
deriving DecidableEq

/-- The `PreimageProvider` collaborator, restricted to the query surface that
`resolved` consumes: `get_preimage(hash) -> Option<Bytes>`. -/
structure PreimageProvider (H : Type) where
  get_preimage : H → Option Bytes

/-- One notification issued to the `PreimageProvider` collaborator;
`ensure_requested`/`ensure_unrequested` are modelled by the trace of such
notifications they emit. -/
inductive ProviderCall (H : Type) where
  | request (h : H)
  | unrequest (h : H)
deriving DecidableEq

variable {T H : Type}

/-- `MaybeHashed::as_value`. -/
def MaybeHashed.as_value : MaybeHashed T H → Option T
  | .Value c => some c
  | .Hash _ => none

/-- `MaybeHashed::as_hash`. -/
def MaybeHashed.as_hash : MaybeHashed T H → Option H
  | .Value _ => none
  | .Hash h => some h

/-- `MaybeHashed::ensure_requested`: the trace of provider calls it makes —
`request_preimage(hash)` for a `Hash`, nothing for a `Value`. -/
def MaybeHashed.ensure_requested : MaybeHashed T H → List (ProviderCall H)
  | .Value _ => []
  | .Hash h => [.request h]

/-- `MaybeHashed::ensure_unrequested`: the trace of provider calls it makes —
`unrequest_preimage(hash)` for a `Hash`, nothing for a `Value`. -/
def MaybeHashed.ensure_unrequested : MaybeHashed T H → List (ProviderCall H)
  | .Value _ => []
  | .Hash h => [.unrequest h]

/-- `MaybeHashed::resolved`.  `dec` models `T::decode` (`some` for `Ok`,
`none` for `Err`). -/
def MaybeHashed.resolved (P : PreimageProvider H) (dec : Bytes → Option T) :
    MaybeHashed T H → MaybeHashed T H × Option H
  | .Value c => (.Value c, none)
  | .Hash h =>
    match P.get_preimage h with
    | some data =>
      match dec data with
      | some c => (.Value c, some h)
      | none => (.Hash h, none)
    | none => (.Hash h, none)

/-- **C1.** For a `Hash(h)` reference, if the provider returns bytes for `h`
and those bytes decode into a call `c`, then `resolved` returns
`(Value(c), Some(h))`: the reference becomes the decoded inline value and the
consumed hash is exactly `h`. -/
theorem resolved_present_decodes (P : PreimageProvider H) (dec : Bytes → Option T)
    (h : H) (data : Bytes) (c : T)
    (hget : P.get_preimage h = some data) (hdec : dec data = some c) :
    (MaybeHashed.Hash (T := T) h).resolved P dec = (.Value c, some h) := by
  simp [MaybeHashed.resolved, hget, hdec]

/-- Witness for C1 at a concrete provider and decoder. -/
theorem resolved_present_decodes_witness :
    PreimageProvider.get_preimage ⟨fun _ : Nat => some [7]⟩ 2 = some [7] ∧
    (fun b : Bytes => b.head?) [7] = some 7 ∧
    (MaybeHashed.Hash (T := Nat) 2).resolved ⟨fun _ : Nat => some [7]⟩ (fun b => b.head?)
      = (.Value 7, some 2) :=
  ⟨rfl, rfl,
    resolved_present_decodes ⟨fun _ : Nat => some [7]⟩ (fun b => b.head?) 2 [7] 7 rfl rfl⟩

/-- **C2.** For a `Hash(h)` reference, if the provider has no bytes for `h`,
or has bytes that fail to decode, `resolved` returns `(Hash(h), None)`: the
reference is unchanged and no hash is consumed. -/
theorem resolved_absent_or_undecodable (P : PreimageProvider H) (dec : Bytes → Option T)
    (h : H)
    (hfail : P.get_preimage h = none ∨
      ∃ data, P.get_preimage h = some data ∧ dec data = none) :
    (MaybeHashed.Hash (T := T) h).resolved P dec = (.Hash h, none) := by
  rcases hfail with hnone | ⟨data, hget, hdec⟩
  · simp [MaybeHashed.resolved, hnone]
  · simp [MaybeHashed.resolved, hget, hdec]

/-- Witness for C2 at a concrete provider with an absent preimage. -/
theorem resolved_absent_or_undecodable_witness :
    (PreimageProvider.get_preimage ⟨fun _ : Nat => (none : Option Bytes)⟩ 3 = none ∨
      ∃ data, PreimageProvider.get_preimage ⟨fun _ : Nat => (none : Option Bytes)⟩ 3
          = some data ∧ (fun b : Bytes => b.head?) data = none) ∧
    (MaybeHashed.Hash (T := Nat) 3).resolved ⟨fun _ : Nat => none⟩ (fun b => b.head?)
      = (.Hash 3, none) :=
  ⟨Or.inl rfl,
    resolved_absent_or_undecodable ⟨fun _ : Nat => none⟩ (fun b => b.head?) 3 (Or.inl rfl)⟩

/-- **C4.** For every inline reference `Value(c)` and every provider,
`resolved` returns `(Value(c), None)`: unchanged, no hash consumed. -/
theorem resolved_value_unchanged (P : PreimageProvider H) (dec : Bytes → Option T) (c : T) :
    (MaybeHashed.Value (H := H) c).resolved P dec = (.Value c, none) := rfl

/-- **C5.** `ensure_requested` calls `request_preimage` on the contained hash
exactly when the reference is a `Hash` and makes no provider call for a
`Value`; symmetrically `ensure_unrequested` calls `unrequest_preimage` exactly
for a `Hash` and never for a `Value`. -/
theorem ensure_requested_unrequested_calls (h : H) (c : T) :
    (MaybeHashed.Hash (T := T) h).ensure_requested = [ProviderCall.request h] ∧
    (MaybeHashed.Value (H := H) c).ensure_requested = [] ∧
    (MaybeHashed.Hash (T := T) h).ensure_unrequested = [ProviderCall.unrequest h] ∧
    (MaybeHashed.Value (H := H) c).ensure_unrequested = [] :=
  ⟨rfl, rfl, rfl, rfl⟩

/-- **C3, counterexample.** At hash `5`, `resolved` under a provider with an
undecodable preimage returns exactly the same pair as under a provider with
no preimage at all: the two failure conditions are not observably
distinguished in the result of `resolved`. -/
theorem resolved_badformat_indistinguishable :
    (MaybeHashed.Hash (T := Nat) 5).resolved ⟨fun _ : Nat => some [0, 1]⟩ (fun _ => none)
      = (MaybeHashed.Hash (T := Nat) 5).resolved ⟨fun _ : Nat => none⟩ (fun _ => none) := rfl

/-- **C3, amended.** When resolution of `Hash(h)` finds the preimage present
but undecodable, `resolved` returns `(Hash(h), None)` — observably identical
to the preimage-absent case; the `BadFormat` condition is distinguished from
`Unknown` only in the `LookupError` type, not in the result of `resolved`. -/
theorem resolved_badformat_same_as_absent (P : PreimageProvider H)
    (dec : Bytes → Option T) (h : H) (data : Bytes)
    (hget : P.get_preimage h = some data) (hdec : dec data = none) :
    (MaybeHashed.Hash (T := T) h).resolved P dec = (.Hash h, none) ∧
    (∀ Q : PreimageProvider H, Q.get_preimage h = none →
      (MaybeHashed.Hash (T := T) h).resolved P dec
        = (MaybeHashed.Hash (T := T) h).resolved Q dec) ∧
    LookupError.BadFormat ≠ LookupError.Unknown := by
  refine ⟨by simp [MaybeHashed.resolved, hget, hdec], ?_, by decide⟩
  intro Q hQ
  simp [MaybeHashed.resolved, hget, hdec, hQ]

/-- Witness for the amended C3 at a concrete provider and decoder. -/
theorem resolved_badformat_same_as_absent_witness :
    PreimageProvider.get_preimage ⟨fun _ : Nat => some [0, 1]⟩ 5 = some [0, 1] ∧
    (fun _ : Bytes => (none : Option Nat)) [0, 1] = none ∧
    ((MaybeHashed.Hash (T := Nat) 5).resolved ⟨fun _ : Nat => some [0, 1]⟩ (fun _ => none)
        = (.Hash 5, none) ∧
      (∀ Q : PreimageProvider Nat, Q.get_preimage 5 = none →
        (MaybeHashed.Hash (T := Nat) 5).resolved ⟨fun _ : Nat => some [0, 1]⟩ (fun _ => none)
          = (MaybeHashed.Hash (T := Nat) 5).resolved Q (fun _ => none)) ∧
      LookupError.BadFormat ≠ LookupError.Unknown) :=
  ⟨rfl, rfl,
    resolved_badformat_same_as_absent ⟨fun _ : Nat => some [0, 1]⟩ (fun _ => none) 5 [0, 1]
      rfl rfl⟩

/-- **C10.** Resolution is idempotent for a fixed provider: writing `y` for
the reference component of `resolved x`, a second application returns
`(y, None)`. -/
theorem resolved_idempotent (P : PreimageProvider H) (dec : Bytes → Option T)
    (x : MaybeHashed T H) :
    ((x.resolved P dec).1).resolved P dec = ((x.resolved P dec).1, none) := by
  cases x with
  | Value c => rfl
  | Hash h =>
    unfold MaybeHashed.resolved
    cases hget : P.get_preimage h with
    | none => simp [hget]
    | some data =>
      cases hdec : dec data with
      | none => simp [hget, hdec]
      | some c => simp [hget, hdec]

/-- Modelled from the spec: §3 Schedule — a description of when a task runs,
`{ target_block, maybe_periodic : Option (period, remaining) }`.  The concrete
scheduler engine is absent from the repository's source, which ships only the
trait surface. -/
structure Schedule where
  target_block : Nat
  maybe_periodic : Option (Nat × Option Nat)
deriving DecidableEq

/-- Modelled from the spec: §3 Task Entry — one scheduled unit: schedule,
priority, origin, call reference, optional name. -/
structure TaskEntry (C O H : Type) where
  schedule : Schedule
  priority : Priority
  origin : O
  call : MaybeHashed C H
  name : Option Bytes
deriving DecidableEq

variable {C O : Type}

/-- Modelled from the spec: §4.4 step 2's order — priority ascending, ties
broken by original slot index. -/
def entryLE (a b : Nat × TaskEntry C O H) : Prop :=
  a.2.priority < b.2.priority ∨ (a.2.priority = b.2.priority ∧ a.1 ≤ b.1)

instance : DecidableRel (entryLE (C := C) (O := O) (H := H)) := fun a b => by
  unfold entryLE; infer_instance

instance : IsTotal (Nat × TaskEntry C O H) entryLE :=
  ⟨by
    intro a b
    simp only [entryLE]
    rcases Nat.lt_trichotomy a.2.priority b.2.priority with h | h | h
    · exact Or.inl (Or.inl h)
    · rcases Nat.le_total a.1 b.1 with h1 | h1
      · exact Or.inl (Or.inr ⟨h, h1⟩)
      · exact Or.inr (Or.inr ⟨h.symm, h1⟩)
    · exact Or.inr (Or.inl h)⟩

instance : IsTrans (Nat × TaskEntry C O H) entryLE :=
  ⟨by
    intro a b c hab hbc
    simp only [entryLE] at hab hbc ⊢
    rcases hab with h1 | ⟨h1, h1i⟩ <;> rcases hbc with h2 | ⟨h2, h2i⟩
    · exact Or.inl (h1.trans h2)
    · exact Or.inl (h2 ▸ h1)
    · exact Or.inl (h1 ▸ h2)
    · exact Or.inr ⟨h1.trans h2, h1i.trans h2i⟩⟩

/-- Modelled from the spec: §4.4 steps 1–2 — drain the block's agenda,
iterating only over non-empty slots, and sort by priority ascending with ties
broken by original slot index (insertion sort is the stable sort). -/
def agendaOrder (agenda : List (Option (TaskEntry C O H))) :
    List (Nat × TaskEntry C O H) :=
  List.insertionSort entryLE (agenda.enum.filterMap fun p => p.2.map fun e => (p.1, e))

/-- Modelled from the spec: §4.4 steps 3–4 — resolve each entry's call
reference and execute in order, accumulating consumed weight `w`.  An
unresolved `Hash` entry is deferred and not counted against capacity; an entry
at or below `HARD_DEADLINE` always executes; an entry above the threshold that
would exceed `limit` is deferred with priority unchanged.  Returns
`(executed, deferred)` in order. -/
def runEntries (P : PreimageProvider H) (dec : Bytes → Option C) (w : C → Nat)
    (limit : Nat) : List (Nat × TaskEntry C O H) → Nat →
    List (Nat × TaskEntry C O H) × List (Nat × TaskEntry C O H)
  | [], _ => ([], [])
  | (i, e) :: rest, acc =>
    match e.call.resolved P dec with
    | (.Value c, _) =>
      if e.priority ≤ HARD_DEADLINE ∨ acc + w c ≤ limit then
        let r := runEntries P dec w limit rest (acc + w c)
        ((i, e) :: r.1, r.2)
      else
        let r := runEntries P dec w limit rest acc
        (r.1, (i, e) :: r.2)
    | (.Hash _, _) =>
      let r := runEntries P dec w limit rest acc
      (r.1, (i, e) :: r.2)

/-- Modelled from the spec: §4.4 Dispatch Cycle for one block — order the
agenda (steps 1–2), then resolve and execute up to capacity (steps 3–4),
returning the executed entries in execution order together with the deferred
entries. -/
def dispatchCycle (P : PreimageProvider H) (dec : Bytes → Option C) (w : C → Nat)
    (limit : Nat) (agenda : List (Option (TaskEntry C O H))) :
    List (Nat × TaskEntry C O H) × List (Nat × TaskEntry C O H) :=
  runEntries P dec w limit (agendaOrder agenda) 0

lemma mem_runEntries_exec (P : PreimageProvider H) (dec : Bytes → Option C)
    (w : C → Nat) (limit : Nat) :
    ∀ (l : List (Nat × TaskEntry C O H)) (acc i : Nat) (e : TaskEntry C O H),
      (i, e) ∈ l → e.priority ≤ HARD_DEADLINE →
      (∃ c hh, e.call.resolved P dec = (.Value c, hh)) →
      (i, e) ∈ (runEntries P dec w limit l acc).1 := by
  intro l
  induction l with
  | nil => intro acc i e hmem; cases hmem
  | cons p rest ih =>
    intro acc i e hmem hprio hres
    obtain ⟨j, f⟩ := p
    rcases List.mem_cons.mp hmem with heq | htail
    · cases heq
      obtain ⟨c, hh, hresEq⟩ := hres
      simp only [runEntries, hresEq, if_pos (Or.inl hprio)]
      exact List.mem_cons_self _ _
    · cases hfr : f.call.resolved P dec with
      | mk fst snd =>
        cases fst with
        | Value c =>
          by_cases hcond : f.priority ≤ HARD_DEADLINE ∨ acc + w c ≤ limit
          · simp only [runEntries, hfr, if_pos hcond]
            exact List.mem_cons_of_mem _ (ih _ i e htail hprio hres)
          · simp only [runEntries, hfr, if_neg hcond]
            exact ih _ i e htail hprio hres
        | Hash hh =>
          simp only [runEntries, hfr]
          exact ih _ i e htail hprio hres

lemma runEntries_exec_sublist (P : PreimageProvider H) (dec : Bytes → Option C)
    (w : C → Nat) (limit : Nat) :
    ∀ (l : List (Nat × TaskEntry C O H)) (acc : Nat),
      List.Sublist (runEntries P dec w limit l acc).1 l := by
  intro l
  induction l with
  | nil => intro acc; simp [runEntries]
  | cons p rest ih =>
    intro acc
    obtain ⟨j, f⟩ := p
    cases hfr : f.call.resolved P dec with
    | mk fst snd =>
      cases fst with
      | Value c =>
        by_cases hcond : f.priority ≤ HARD_DEADLINE ∨ acc + w c ≤ limit
        · simp only [runEntries, hfr, if_pos hcond]
          exact List.Sublist.cons₂ _ (ih _)
        · simp only [runEntries, hfr, if_neg hcond]
          exact List.Sublist.cons _ (ih _)
      | Hash hh =>
        simp only [runEntries, hfr]
        exact List.Sublist.cons _ (ih _)

/-- **C6.** Every agenda entry whose priority is at or below `HARD_DEADLINE`
(63) and whose call reference resolves is executed by the Dispatch Cycle in
its target block, with no hypothesis on weights or the capacity limit — in
particular even when executing it pushes the accumulated weight past the
limit. -/
theorem hard_deadline_always_executes (P : PreimageProvider H)
    (dec : Bytes → Option C) (w : C → Nat) (limit : Nat)
    (agenda : List (Option (TaskEntry C O H))) (i : Nat) (e : TaskEntry C O H)
    (hslot : agenda[i]? = some (some e))
    (hprio : e.priority ≤ HARD_DEADLINE)
    (hres : ∃ c hh, e.call.resolved P dec = (.Value c, hh)) :
    (i, e) ∈ (dispatchCycle P dec w limit agenda).1 := by
  apply mem_runEntries_exec P dec w limit _ 0 i e _ hprio hres
  apply (List.perm_insertionSort entryLE _).mem_iff.mpr
  apply List.mem_filterMap.mpr
  exact ⟨(i, some e), List.mk_mem_enum_iff_getElem?.mpr hslot, rfl⟩

/-- Witness for C6: a priority-10 task in slot 1 executes even though the
priority-70 task before it by slot already exhausted a capacity limit of 0. -/
theorem hard_deadline_always_executes_witness :
    ([some (⟨⟨9, none⟩, 70, (), MaybeHashed.Value 1, none⟩ : TaskEntry Nat Unit Nat),
        some ⟨⟨9, none⟩, 10, (), MaybeHashed.Value 2, none⟩][1]?
      = some (some ⟨⟨9, none⟩, 10, (), MaybeHashed.Value 2, none⟩)) ∧
    (10 ≤ HARD_DEADLINE) ∧
    (1, (⟨⟨9, none⟩, 10, (), MaybeHashed.Value 2, none⟩ : TaskEntry Nat Unit Nat)) ∈
      (dispatchCycle ⟨fun _ => none⟩ (fun b => b.head?) (fun _ => 5) 0
        [some ⟨⟨9, none⟩, 70, (), MaybeHashed.Value 1, none⟩,
          some ⟨⟨9, none⟩, 10, (), MaybeHashed.Value 2, none⟩]).1 :=
  ⟨rfl, by decide,
    hard_deadline_always_executes ⟨fun _ => none⟩ (fun b => b.head?) (fun _ => 5) 0
      [some ⟨⟨9, none⟩, 70, (), MaybeHashed.Value 1, none⟩,
        some ⟨⟨9, none⟩, 10, (), MaybeHashed.Value 2, none⟩] 1
      ⟨⟨9, none⟩, 10, (), MaybeHashed.Value 2, none⟩ rfl (by decide) ⟨2, none, rfl⟩⟩

/-- **C7.** Within one Dispatch Cycle the entries execute in ascending order
of priority, ties broken by original slot index; concretely, with two tasks at
the same block of priorities 5 and 10, the priority-5 task executes first. -/
theorem execution_priority_order :
    (∀ (C O H : Type) (P : PreimageProvider H) (dec : Bytes → Option C)
        (w : C → Nat) (limit : Nat) (agenda : List (Option (TaskEntry C O H))),
      List.Sorted entryLE (dispatchCycle P dec w limit agenda).1) ∧
    (dispatchCycle (C := Nat) (O := Unit) (H := Nat) ⟨fun _ => none⟩ (fun b => b.head?)
        (fun _ => 1) 100
        [some ⟨⟨9, none⟩, 10, (), MaybeHashed.Value 1, none⟩,
          some ⟨⟨9, none⟩, 5, (), MaybeHashed.Value 2, none⟩]).1.map
        (fun p => p.2.priority) = [5, 10] := by
  constructor
  · intro C O H P dec w limit agenda
    exact (List.sorted_insertionSort entryLE _).sublist
      (runEntries_exec_sublist P dec w limit _ 0)
  · decide

/-- Modelled from the spec: §3 Address — `(block, index)`. -/
abbrev Address := Nat × Nat

/-- Modelled from the spec: §7 error taxonomy for the scheduling API. -/
inductive SchedError where
  | InvalidAddress
  | InvalidName
  | DuplicateName
  | TargetInPast
  | TooLateToReschedule
deriving DecidableEq

/-- Modelled from the spec: §3 and §9 — the scheduler's explicit state: the
current block height, the Agenda Store mapping block height to ordered
`Option` slots, and the Name Index mapping names to current addresses. -/
structure SchedulerState (C O H : Type) where
  now : Nat
  agenda : Nat → List (Option (TaskEntry C O H))
  nameIndex : List (Bytes × Address)

/-- Modelled from the spec: §3 Name Index lookup of a name's current
address. -/
def lookupName : List (Bytes × Address) → Bytes → Option Address
  | [], _ => none
  | (n, a) :: rest, key => if n = key then some a else lookupName rest key

/-- Modelled from the spec: §4.2 — the schedule core shared by the anonymous
and named APIs: validate that the target block is strictly in the future
(fail with `TargetInPast` otherwise, mutating nothing), append the Task Entry
to the target block's agenda, and return the new `(block, index)` address. -/
def scheduleEntry (s : SchedulerState C O H) (name : Option Bytes)
    (sched : Schedule) (prio : Priority) (origin : O) (call : MaybeHashed C H) :
    Except SchedError Address × SchedulerState C O H :=
  if sched.target_block ≤ s.now then (.error .TargetInPast, s)
  else
    let slots := s.agenda sched.target_block
    (.ok (sched.target_block, slots.length),
      { s with agenda := fun b =>
          if b = sched.target_block then slots ++ [some ⟨sched, prio, origin, call, name⟩]
          else s.agenda b })

/-- Modelled from the spec: §4.2 anonymous `schedule`. -/
def schedule (s : SchedulerState C O H) (sched : Schedule) (prio : Priority)
    (origin : O) (call : MaybeHashed C H) :
    Except SchedError Address × SchedulerState C O H :=
  scheduleEntry s none sched prio origin call

/-- Modelled from the spec: §4.3 `schedule_named` — fails with the
duplicate-name condition when the id is already in use by a live task, without
mutating state; otherwise behaves as §4.2's `schedule` and additionally
records `id → address` in the Name Index. -/
def schedule_named (s : SchedulerState C O H) (key : Bytes) (sched : Schedule)
    (prio : Priority) (origin : O) (call : MaybeHashed C H) :
    Except SchedError Address × SchedulerState C O H :=
  if (lookupName s.nameIndex key).isSome then (.error .DuplicateName, s)
  else
    match scheduleEntry s (some key) sched prio origin call with
    | (.ok addr, s1) => (.ok addr, { s1 with nameIndex := (key, addr) :: s1.nameIndex })
    | (.error e, s1) => (.error e, s1)

/-- **C8.** When a name is already bound to a live task, `schedule_named`
fails with `DuplicateName` and returns the scheduler state entirely unchanged;
in particular the Name Index still maps the name to the same address. -/
theorem schedule_named_duplicate (s : SchedulerState C O H) (key : Bytes)
    (sched : Schedule) (prio : Priority) (origin : O) (call : MaybeHashed C H)
    (addr : Address) (hdup : lookupName s.nameIndex key = some addr) :
    schedule_named s key sched prio origin call = (.error .DuplicateName, s) ∧
    (schedule_named s key sched prio origin call).2.agenda = s.agenda ∧
    lookupName (schedule_named s key sched prio origin call).2.nameIndex key
      = some addr := by
  have hsome : (lookupName s.nameIndex key).isSome = true := by rw [hdup]; rfl
  refine ⟨?_, ?_, ?_⟩ <;> simp [schedule_named, hsome, hdup]

/-- Witness for C8: a state whose Name Index binds `[1]` to address `(5, 0)`
rejects a second `schedule_named` under `[1]` and keeps the state as it was. -/
theorem schedule_named_duplicate_witness :
    lookupName [([1], ((5, 0) : Address))] [1] = some (5, 0) ∧
    (schedule_named (⟨0, fun _ => [], [([1], (5, 0))]⟩ : SchedulerState Nat Unit Nat)
        [1] ⟨3, none⟩ 7 () (.Value 4)
      = (.error .DuplicateName, ⟨0, fun _ => [], [([1], (5, 0))]⟩) ∧
      (schedule_named (⟨0, fun _ => [], [([1], (5, 0))]⟩ : SchedulerState Nat Unit Nat)
          [1] ⟨3, none⟩ 7 () (.Value 4)).2.agenda = (fun _ => []) ∧
      lookupName (schedule_named
          (⟨0, fun _ => [], [([1], (5, 0))]⟩ : SchedulerState Nat Unit Nat)
          [1] ⟨3, none⟩ 7 () (.Value 4)).2.nameIndex [1] = some (5, 0)) :=
  ⟨rfl,
    schedule_named_duplicate (⟨0, fun _ => [], [([1], (5, 0))]⟩ : SchedulerState Nat Unit Nat)
      [1] ⟨3, none⟩ 7 () (.Value 4) (5, 0) rfl⟩

/-- **C9.** `schedule` fails with `TargetInPast` and mutates no agenda when
the target block is not strictly in the future (and `schedule_named` with a
free name likewise); when the target block is strictly in the future it
appends the task entry to the target block's agenda, leaves every other
agenda unchanged, and returns the new `(block, index)` address. -/
theorem schedule_target_validation (s : SchedulerState C O H) (sched : Schedule)
    (prio : Priority) (origin : O) (call : MaybeHashed C H) :
    (sched.target_block ≤ s.now →
      schedule s sched prio origin call = (.error .TargetInPast, s) ∧
      ∀ key, lookupName s.nameIndex key = none →
        schedule_named s key sched prio origin call = (.error .TargetInPast, s)) ∧
    (s.now < sched.target_block →
      (schedule s sched prio origin call).1
          = .ok (sched.target_block, (s.agenda sched.target_block).length) ∧
      (schedule s sched prio origin call).2.agenda sched.target_block
          = s.agenda sched.target_block ++ [some ⟨sched, prio, origin, call, none⟩] ∧
      ∀ b, b ≠ sched.target_block →
        (schedule s sched prio origin call).2.agenda b = s.agenda b) := by
  constructor
  · intro hle
    constructor
    · simp [schedule, scheduleEntry, hle]
    · intro key hfree
      have hnone : (lookupName s.nameIndex key).isSome = false := by rw [hfree]; rfl
      simp [schedule_named, hnone, scheduleEntry, hle]
  · intro hlt
    have hnle : ¬ sched.target_block ≤ s.now := Nat.not_le.mpr hlt
    refine ⟨by simp [schedule, scheduleEntry, hnle], by simp [schedule, scheduleEntry, hnle], ?_⟩
    intro b hb
    simp [schedule, scheduleEntry, hnle, hb]

/-- Witness for C9: in a state at block height 2, targeting block 1 fails with
`TargetInPast` (also for the named variant under a free name) and targeting
block 5 succeeds with address `(5, 0)` and an appended agenda slot. -/
theorem schedule_target_validation_witness :
    ((1 : Nat) ≤ 2 ∧
      schedule (⟨2, fun _ => [], []⟩ : SchedulerState Nat Unit Nat) ⟨1, none⟩ 7 () (.Value 4)
        = (.error .TargetInPast, ⟨2, fun _ => [], []⟩) ∧
      schedule_named (⟨2, fun _ => [], []⟩ : SchedulerState Nat Unit Nat) [2] ⟨1, none⟩ 7 ()
        (.Value 4) = (.error .TargetInPast, ⟨2, fun _ => [], []⟩)) ∧
    ((2 : Nat) < 5 ∧
      (schedule (⟨2, fun _ => [], []⟩ : SchedulerState Nat Unit Nat) ⟨5, none⟩ 7 ()
        (.Value 4)).1 = .ok (5, 0) ∧
      (schedule (⟨2, fun _ => [], []⟩ : SchedulerState Nat Unit Nat) ⟨5, none⟩ 7 ()
        (.Value 4)).2.agenda 5 = [some ⟨⟨5, none⟩, 7, (), .Value 4, none⟩]) := by
  have hpast := (schedule_target_validation
    (⟨2, fun _ => [], []⟩ : SchedulerState Nat Unit Nat) ⟨1, none⟩ 7 () (.Value 4)).1
    (by decide)
  have hfut := (schedule_target_validation
    (⟨2, fun _ => [], []⟩ : SchedulerState Nat Unit Nat) ⟨5, none⟩ 7 () (.Value 4)).2
    (by decide)
  exact ⟨⟨by decide, hpast.1, hpast.2 [2] rfl⟩, ⟨by decide, hfut.1, hfut.2.1⟩⟩

end SchedulerTraits
